import Mathlib

/-!
Verification of the `chp` build-orchestration tool (`src/main.rs`).

The development shallowly embeds the program:
- the filesystem is an explicit tree of named entries (`Entry`);
- paths are lists of components, the invocation directory and the project
  root are passed explicitly;
- external process execution is an oracle `Invocation → Option ProcOutput`
  (`none` models a spawn failure);
- console output of `build` and `run` is an explicit effect trace;
- parseable TOML text is modelled structurally (`TomlDoc`), any other text
  by `FileData.text`.
-/

namespace Chp

/-- Structural model of a text file that parses as TOML, restricted to the
fields the program's `Config` schema mentions; a `none` field is absent from
the document. -/
structure TomlDoc where
  name : Option String
  command : Option String
  compile_cpp_in_dirs : Option (List String)
  profiles_debug : Option (List String)
  profiles_release : Option (List String)
deriving DecidableEq, Repr

/-- Contents of a file: either text that parses as a TOML document, or other
text (which fails TOML parsing of the config schema). -/
inductive FileData : Type where
  | doc (d : TomlDoc) : FileData
  | text (s : String) : FileData
deriving DecidableEq, Repr

/-- A directory entry: a file with contents, or a subdirectory with its own
entries (`std::fs` directory tree). -/
inductive Entry : Type where
  | file (name : String) (data : FileData) : Entry
  | dir (name : String) (entries : List Entry) : Entry
deriving Repr

/-- The `file_name()` of a directory entry. -/
def Entry.name : Entry → String
  | .file n _ => n
  | .dir n _ => n

/-- `read_dir`: resolve a path (list of components, relative to the
filesystem root) to the entry list of the directory it denotes; `none` models
the `io::Error` of `read_dir` (missing path, or the path is a file). -/
def readDir (entries : List Entry) : List String → Option (List Entry)
  | [] => some entries
  | c :: rest =>
    match entries.find? (fun e => e.name == c) with
    | some (.dir _ sub) => readDir sub rest
    | _ => none

/-- `read_to_string`: resolve a path to the contents of the file it denotes;
`none` models the read failing (missing path, or the path is a directory). -/
def readFile (entries : List Entry) : List String → Option FileData
  | [] => none
  | [n] =>
    match entries.find? (fun e => e.name == n) with
    | some (.file _ d) => some d
    | _ => none
  | c :: rest =>
    match entries.find? (fun e => e.name == c) with
    | some (.dir _ sub) => readFile sub rest
    | _ => none

/-- Characters after the last `'.'` of the list, if the list has a `'.'`. -/
def extensionAux : List Char → Option (List Char)
  | [] => none
  | c :: rest =>
    match extensionAux rest with
    | some e => some e
    | none => if c = '.' then some rest else none

/-- Rust `Path::extension` on a single path component: the portion of the
name after the final `'.'`, except that a leading `'.'` (hidden file) does
not count as a separator. -/
def extension (name : String) : Option String :=
  match name.data with
  | [] => none
  | _ :: rest => (extensionAux rest).map (fun e => String.mk e)

/-- Rust `Path` rendering of a component-list path (Unix separator). -/
def pathToString : List String → String
  | [] => ""
  | [c] => c
  | c :: rest => c ++ "/" ++ pathToString rest

/-- `path.strip_prefix(root)` for a path known to extend `root`. -/
def stripRoot (root p : List String) : List String :=
  p.drop root.length

/-- The error outcomes of the program, one constructor per failure site
(the Rust code reports them as `eyre::Report` messages). -/
inductive Error : Type where
  | RootNotFound
  | DirectoryReadError
  | ConfigReadError
  | ConfigParseError
  | DirectoryWalkError
  | NonEmptyDirectory
  | GitInitError
  | ProcessSpawnError
  | DirectoryCreateError
  | FileWriteError
  | MissingProjectName
deriving DecidableEq, Repr

/-- The `.any(...)` scan of `find_root` over a directory's children: is some
entry named `chp.toml`? -/
def hasChpToml : List Entry → Bool
  | [] => false
  | e :: rest => (e.name == "chp.toml") || hasChpToml rest

/-- The loop body of `find_root`, iterating over `current_dir().ancestors()`.
The ancestor chain of a component-list path is obtained by repeatedly
dropping the last component, so the loop is phrased structurally over the
REVERSED path: `q` is the reversed remainder of the chain and `q.reverse` the
ancestor currently tested.  Each iteration is `read_dir(path)?` followed by
the scan of the children for an entry named `chp.toml`. -/
def findRootRev (fs : List Entry) : List String → Except Error (List String)
  | [] =>
    match readDir fs [] with
    | none => .error .DirectoryReadError
    | some es =>
      if hasChpToml es then .ok []
      else .error .RootNotFound
  | c :: rest =>
    match readDir fs (c :: rest).reverse with
    | none => .error .DirectoryReadError
    | some es =>
      if hasChpToml es then .ok (c :: rest).reverse
      else findRootRev fs rest

/-- `find_root`: walk the ancestors of the invocation directory (itself
first) and return the first whose children contain an entry named
`chp.toml`; when the whole chain is exhausted, fail. -/
def find_root (fs : List Entry) (cwd : List String) : Except Error (List String) :=
  findRootRev fs cwd.reverse

/-- The body of `find_cpp_files_in_dirs_helper`: iterate over the entries of
the directory at path `dirPath`; recurse into subdirectories, and push the
root-relative path of every entry whose extension is `cpp`.  The recursion
into a subdirectory happens BEFORE the extension test for that entry, and the
test applies to directories as well as files. -/
def walkEntries (root dirPath : List String) : List Entry → List (List String)
  | [] => []
  | .file n _ :: rest =>
    (if extension n = some "cpp" then [stripRoot root (dirPath ++ [n])] else [])
      ++ walkEntries root dirPath rest
  | .dir n sub :: rest =>
    walkEntries root (dirPath ++ [n]) sub
      ++ (if extension n = some "cpp" then [stripRoot root (dirPath ++ [n])] else [])
      ++ walkEntries root dirPath rest

/-- The loop of `find_cpp_files_in_dirs` over the configured directories:
each directory name is pushed onto the root and walked; the first
unreadable directory aborts the loop (`read_dir(dir)?`). -/
def findCppGo (fs : List Entry) (root : List String) : List String → Except Error (List (List String))
  | [] => .ok []
  | d :: rest =>
    match readDir fs (root ++ [d]) with
    | none => .error .DirectoryWalkError
    | some es =>
      match findCppGo fs root rest with
      | .error e => .error e
      | .ok more => .ok (walkEntries root (root ++ [d]) es ++ more)

/-- `find_cpp_files_in_dirs`: resolve the project root, then collect the
`cpp`-extension entries under each configured directory (an absent
`compile_cpp_in_dirs` gives the empty directory list). -/
def find_cpp_files_in_dirs (fs : List Entry) (cwd : List String)
    (maybe_dirs : Option (List String)) : Except Error (List (List String)) :=
  match find_root fs cwd with
  | .error e => .error e
  | .ok root => findCppGo fs root (maybe_dirs.getD [])

/-- The `[profiles]` table of the configuration: both flag lists are
mandatory. -/
structure Profiles where
  debug : List String
  release : List String
deriving DecidableEq, Repr

/-- The project descriptor deserialized from `chp.toml`: `name`, `command`
and the two profiles are plain fields (mandatory), `compile_cpp_in_dirs` is
an `Option` (may be absent). -/
structure Config where
  name : String
  command : String
  compile_cpp_in_dirs : Option (List String)
  profiles : Profiles
deriving DecidableEq, Repr

/-- Serde deserialization of `Config` from a TOML document: succeeds exactly
when every mandatory field is present, and takes each field verbatim from
the document (no defaulting). -/
def fromToml (d : TomlDoc) : Option Config :=
  match d.name, d.command, d.profiles_debug, d.profiles_release with
  | some n, some c, some dbg, some rel =>
    some ⟨n, c, d.compile_cpp_in_dirs, ⟨dbg, rel⟩⟩
  | _, _, _, _ => none

/-- `toml::from_str` on file contents: text that is not a well-formed TOML
document of the schema fails. -/
def parseFileData : FileData → Option Config
  | .doc d => fromToml d
  | .text _ => none

/-- `read_config`: resolve the root, read `<root>/chp.toml` as text
(failure: the read error message), and parse it (failure: the parse
error). -/
def read_config (fs : List Entry) (cwd : List String) : Except Error Config :=
  match find_root fs cwd with
  | .error e => .error e
  | .ok root =>
    match readFile fs (root ++ ["chp.toml"]) with
    | none => .error .ConfigReadError
    | some fd =>
      match parseFileData fd with
      | some c => .ok c
      | none => .error .ConfigParseError

/-- A spawned external process: program name (or path), argument vector, and
the working directory of the child. -/
structure Invocation where
  program : String
  args : List String
  workdir : List String
deriving DecidableEq, Repr

/-- The captured output of a terminated child process, as byte lists. -/
structure ProcOutput where
  stdout : List Nat
  stderr : List Nat
deriving DecidableEq, Repr

/-- An execution oracle: what each possible child process would produce;
`none` models a spawn failure (`Command::output()` returning `Err`). -/
def Executor : Type := Invocation → Option ProcOutput

/-- Observable console actions of the tool itself: a `println!` line, a
(synchronous) child-process spawn, and verbatim byte writes to the caller's
standard output / standard error. -/
inductive Effect : Type where
  | log (line : String) : Effect
  | spawn (inv : Invocation) : Effect
  | writeStdout (bytes : List Nat) : Effect
  | writeStderr (bytes : List Nat) : Effect
deriving DecidableEq, Repr

/-- The profile selection in `build`: `profiles.release` when the release
flag is set, `profiles.debug` otherwise. -/
def profileArgs (cfg : Config) (release : Bool) : List String :=
  if release then cfg.profiles.release else cfg.profiles.debug

/-- The compiler invocation assembled by `build`: the configured command,
applied to the discovered source paths followed by the selected profile's
flags, in the caller's working directory. -/
def compilerInvocation (cfg : Config) (release : Bool) (files : List (List String))
    (cwd : List String) : Invocation :=
  ⟨cfg.command, files.map pathToString ++ profileArgs cfg release, cwd⟩

/-- `build`: read the configuration, print the `Building` line, discover the
sources, spawn the compiler and wait for it.  A spawn failure is a hard
error; otherwise, if the captured standard error is non-empty it is
forwarded verbatim to the caller's standard error and the function returns
`Ok` early; an empty standard error also returns `Ok`. -/
def build (fs : List Entry) (cwd : List String) (exec : Executor) (release : Bool) :
    Except Error Unit × List Effect :=
  match read_config fs cwd with
  | .error e => (.error e, [])
  | .ok cfg =>
    let building := Effect.log ("Building " ++ pathToString cwd)
    match find_cpp_files_in_dirs fs cwd cfg.compile_cpp_in_dirs with
    | .error e => (.error e, [building])
    | .ok files =>
      let inv := compilerInvocation cfg release files cwd
      match exec inv with
      | none => (.error .ProcessSpawnError, [building, .spawn inv])
      | some out =>
        if out.stderr.isEmpty then (.ok (), [building, .spawn inv])
        else (.ok (), [building, .spawn inv, .writeStderr out.stderr])

/-- The path at which `run` looks for the produced binary: it pushes
`build`, the profile directory and `<name>.exe` onto the INVOCATION
directory (`current_dir()`), not onto the project root. -/
def binaryPath (cwd : List String) (release : Bool) (name : String) : List String :=
  cwd ++ ["build", if release then "release" else "debug", name ++ ".exe"]

/-- `run`: perform a full `build` (propagating only its hard errors), read
the configuration again, print the `Running` line, spawn the binary at
`binaryPath` with the pass-through arguments, and forward its standard
output and standard error verbatim after it terminates. -/
def run (fs : List Entry) (cwd : List String) (exec : Executor) (release : Bool)
    (args : List String) : Except Error Unit × List Effect :=
  match build fs cwd exec release with
  | (.error e, tr) => (.error e, tr)
  | (.ok _, tr) =>
    match read_config fs cwd with
    | .error e => (.error e, tr)
    | .ok cfg =>
      let bin := binaryPath cwd release cfg.name
      let inv : Invocation := ⟨pathToString bin, args, cwd⟩
      let tr2 := tr ++ [.log ("Running " ++ pathToString bin), .spawn inv]
      match exec inv with
      | none => (.error .ProcessSpawnError, tr2)
      | some out => (.ok (), tr2 ++ [.writeStdout out.stdout, .writeStderr out.stderr])

/-- Replace the first entry with the given name by a new entry (used by the
filesystem-mutation operations below). -/
def replaceEntry : List Entry → String → Entry → List Entry
  | [], _, _ => []
  | e :: es, c, e2 => if e.name == c then e2 :: es else e :: replaceEntry es c e2

/-- `create_dir_all`: ensure every component of the path exists as a
directory, creating missing ones; fails (`none`) when a component already
exists as a file. -/
def mkdirAll (entries : List Entry) : List String → Option (List Entry)
  | [] => some entries
  | c :: rest =>
    match entries.find? (fun e => e.name == c) with
    | some (.dir _ sub) =>
      match mkdirAll sub rest with
      | some sub2 => some (replaceEntry entries c (.dir c sub2))
      | none => none
    | some (.file _ _) => none
    | none =>
      match mkdirAll [] rest with
      | some sub2 => some (entries ++ [.dir c sub2])
      | none => none

/-- `OpenOptions::new().create(true).write(true)` followed by `write_all`:
create or overwrite the file at the path; fails when the parent directory
does not exist or the target is a directory. -/
def writeFileAt (entries : List Entry) : List String → FileData → Option (List Entry)
  | [], _ => none
  | [n], d =>
    match entries.find? (fun e => e.name == n) with
    | some (.file _ _) => some (replaceEntry entries n (.file n d))
    | some (.dir _ _) => none
    | none => some (entries ++ [.file n d])
  | c :: rest, d =>
    match entries.find? (fun e => e.name == c) with
    | some (.dir _ sub) =>
      match writeFileAt sub rest d with
      | some sub2 => some (replaceEntry entries c (.dir c sub2))
      | none => none
    | _ => none

/-- The TOML document written by the scaffolder: `CONFIG_FILE_CONTENT` with
the project name substituted for each placeholder. -/
def defaultToml (projectName : String) : TomlDoc :=
  ⟨some projectName, some "g++", some ["src"],
    some ["-fdiagnostics-color=always", "-std=c++20", "-Wall", "-Wextra", "-pedantic",
      "-Weffc++", "-Wsuggest-attribute=const", "-fconcepts", "-Og", "-g", "-o",
      "build/debug/" ++ projectName ++ ".exe"],
    some ["-fdiagnostics-color=always", "-std=c++20", "-Wall", "-Wextra", "-pedantic",
      "-Weffc++", "-Wsuggest-attribute=const", "-fconcepts", "-O2", "-o",
      "build/release/" ++ projectName ++ ".exe"]⟩

/-- `MAIN_FILE_CONTENT`, the scaffolded `src/main.cpp`. -/
def mainFileContent : String :=
  "#include <iostream>\n\nint main() \x7b\n    std::cout << \"Hello, World\" << std::endl;\n\x7d\n"

/-- `write_project`: create the target directory, take the project name from
its last component, run `git init` in it (a spawn failure or any standard
error from git is a hard failure), then write `chp.toml`, `src/main.cpp`
and the `build/debug` and `build/release` directories.  The updated
filesystem is returned alongside the result; on failure the filesystem
mutations already performed remain (no rollback). -/
def write_project (fs : List Entry) (exec : Executor) (path : List String) :
    Except Error Unit × List Entry :=
  match mkdirAll fs path with
  | none => (.error .DirectoryCreateError, fs)
  | some fs1 =>
    match path.getLast? with
    | none => (.error .MissingProjectName, fs1)
    | some projectName =>
      match exec ⟨"git", ["init"], path⟩ with
      | none => (.error .GitInitError, fs1)
      | some out =>
        if out.stderr.isEmpty then
          match writeFileAt fs1 (path ++ ["chp.toml"]) (.doc (defaultToml projectName)) with
          | none => (.error .FileWriteError, fs1)
          | some fs2 =>
            match mkdirAll fs2 (path ++ ["src"]) with
            | none => (.error .DirectoryCreateError, fs2)
            | some fs3 =>
              match writeFileAt fs3 (path ++ ["src", "main.cpp"]) (.text mainFileContent) with
              | none => (.error .FileWriteError, fs3)
              | some fs4 =>
                match mkdirAll fs4 (path ++ ["build", "debug"]) with
                | none => (.error .DirectoryCreateError, fs4)
                | some fs5 =>
                  match mkdirAll fs5 (path ++ ["build", "release"]) with
                  | none => (.error .DirectoryCreateError, fs5)
                  | some fs6 => (.ok (), fs6)
        else (.error .GitInitError, fs1)

/-- The target directory of a scaffolding request: the invocation directory
itself for `init`, `current_dir` plus the new name for `new <name>`. -/
def targetOf (cwd : List String) (maybe_name : Option String) : List String :=
  match maybe_name with
  | some n => cwd ++ [n]
  | none => cwd

/-- `init_project`: if the target directory is readable and contains at
least one entry, fail with the non-empty-directory error BEFORE any write;
otherwise (empty, or not readable because absent) scaffold via
`write_project`. -/
def init_project (fs : List Entry) (cwd : List String) (exec : Executor)
    (maybe_name : Option String) : Except Error Unit × List Entry :=
  let target := targetOf cwd maybe_name
  match readDir fs target with
  | some (_ :: _) => (.error .NonEmptyDirectory, fs)
  | _ => write_project fs exec target

/-! Concrete fixtures used to instantiate the theorems below. -/

/-- The configuration document of the end-to-end scenario:
`name="demo"`, `command="cc"`, `source_dirs=["src"]`,
`profiles.debug=["-O0","-o","build/debug/demo.out"]`. -/
def demoToml : TomlDoc :=
  ⟨some "demo", some "cc", some ["src"], some ["-O0", "-o", "build/debug/demo.out"],
    some ["-O2"]⟩

/-- The descriptor that `demoToml` deserializes to. -/
def demoConfig : Config :=
  ⟨"demo", "cc", some ["src"], ⟨["-O0", "-o", "build/debug/demo.out"], ["-O2"]⟩⟩

/-- A project at the filesystem root: the marker file and one source file
`src/main.cpp`. -/
def demoFs : List Entry :=
  [.file "chp.toml" (.doc demoToml), .dir "src" [.file "main.cpp" (.text "")]]

/-- `demoFs` with an extra (empty) subdirectory `sub` to invoke the tool
from. -/
def subFs : List Entry :=
  [.file "chp.toml" (.doc demoToml), .dir "src" [.file "main.cpp" (.text "")], .dir "sub" []]

/-- A project whose source directory contains no `cpp` file at all, but one
empty SUBDIRECTORY named `sub.cpp`. -/
def dirCppFs : List Entry :=
  [.file "chp.toml" (.doc demoToml), .dir "src" [.dir "sub.cpp" []]]

/-- Executor: the compiler succeeds quietly; the binary (looked up at the
path rooted in the filesystem root) produces one byte on each stream. -/
def execQuiet : Executor := fun inv =>
  if inv.program == "cc" then some ⟨[], []⟩
  else if inv.program == "build/debug/demo.exe" then some ⟨[10], [20]⟩
  else none

/-- Executor: the compiler produces a non-empty standard error (one byte
`5`); the binary still exists and runs. -/
def execNoisy : Executor := fun inv =>
  if inv.program == "cc" then some ⟨[], [5]⟩
  else if inv.program == "build/debug/demo.exe" then some ⟨[7], []⟩
  else none

/-- Executor for invocations from `sub`: the compiler succeeds quietly and a
binary exists only at the path rooted at the INVOCATION directory. -/
def execSub : Executor := fun inv =>
  if inv.program == "cc" then some ⟨[], []⟩
  else if inv.program == "sub/build/debug/demo.exe" then some ⟨[1], [2]⟩
  else none

/-- A tree with the marker file both at the filesystem root and in `a`:
invoked from `a/b`, the nearest marked ancestor is `a`. -/
def nestedFs : List Entry :=
  [.file "chp.toml" (.text ""),
   .dir "a" [.file "chp.toml" (.text ""), .dir "b" []]]

/-- A non-empty scaffolding target: directory `proj` already contains one
entry. -/
def dirtyFs : List Entry :=
  [.dir "proj" [.file "junk" (.text "")]]

/-- A configuration document missing the mandatory `name` field. -/
def badToml : TomlDoc :=
  ⟨none, some "cc", none, some [], some []⟩

/-- A project whose `chp.toml` parses but misses a mandatory field. -/
def badFs : List Entry :=
  [.file "chp.toml" (.doc badToml)]

/-! Specification-side definitions, following the spec's words; the theorems
below compare the program's functions against them. -/

/-- The ancestor chain of a REVERSED path: `ancRev q` lists `q.reverse`
first, then the ancestors of `q.reverse`, the filesystem root `[]` last. -/
def ancRev : List String → List (List String)
  | [] => [[]]
  | c :: rest => (c :: rest).reverse :: ancRev rest

/-- The ancestor chain of a path, the path itself (nearest) first and the
filesystem root last. -/
def ancestorsOf (p : List String) : List (List String) :=
  ancRev p.reverse

/-- Does the directory at `q` directly contain an entry named `chp.toml`? -/
def hasMarker (fs : List Entry) (q : List String) : Bool :=
  match readDir fs q with
  | some es => hasChpToml es
  | none => false

/-- Specification-side collection: the relative paths of ALL entries — files
and directories alike — in an entry list whose name has extension `cpp`,
directories listed before their contents. -/
def cppEntriesList : List Entry → List (List String)
  | [] => []
  | .file n _ :: rest =>
    (if extension n = some "cpp" then [[n]] else []) ++ cppEntriesList rest
  | .dir n sub :: rest =>
    (if extension n = some "cpp" then [[n]] else [])
      ++ (cppEntriesList sub).map (fun q => n :: q) ++ cppEntriesList rest

/-- Specification-side collection: the root-relative paths of all
`cpp`-extension entries under each of the configured directories. -/
def cppUnderDirs (fs : List Entry) (root : List String) : List String → List (List String)
  | [] => []
  | d :: rest =>
    (match readDir fs (root ++ [d]) with
     | some es => (cppEntriesList es).map (fun q => d :: q)
     | none => []) ++ cppUnderDirs fs root rest

/-- Specification-side collection: the relative paths of the `cpp`-extension
FILES only (the spec's `N`); directories are not files and are not
counted. -/
def cppFileList : List Entry → List (List String)
  | [] => []
  | .file n _ :: rest =>
    (if extension n = some "cpp" then [[n]] else []) ++ cppFileList rest
  | .dir n sub :: rest =>
    (cppFileList sub).map (fun q => n :: q) ++ cppFileList rest

end Chp

namespace Chp

/-! ### Helper lemmas about the filesystem model -/

/-- Resolving a composite path resolves its first part first. -/
theorem readDir_append (fs : List Entry) (xs ys : List String) :
    readDir fs (xs ++ ys) =
      match readDir fs xs with
      | some es => readDir es ys
      | none => none := by
  induction xs generalizing fs with
  | nil => simp [readDir]
  | cons c xs ih =>
    simp only [List.cons_append, readDir]
    cases h : fs.find? (fun e => e.name == c) with
    | none => rfl
    | some e =>
      cases e with
      | file n d => rfl
      | dir n sub => exact ih sub

/-- If a path resolves to a directory, so does every prefix of it. -/
theorem readDir_isSome_of_append (fs : List Entry) (xs ys : List String)
    (h : (readDir fs (xs ++ ys)).isSome = true) : (readDir fs xs).isSome = true := by
  rw [readDir_append] at h
  cases hx : readDir fs xs with
  | none => rw [hx] at h; simp at h
  | some es => simp

/-- A prefix of `ys ++ [c]` is a prefix of `ys` or the whole list. -/
theorem prefix_snoc_cases {α : Type*} {p ys : List α} {c : α} (h : p <+: ys ++ [c]) :
    p <+: ys ∨ p = ys ++ [c] := by
  rcases h with ⟨t, ht⟩
  cases t using List.reverseRecOn with
  | nil => right; simpa using ht
  | append_singleton t2 c2 =>
    left
    rw [← List.append_assoc] at ht
    exact ⟨t2, (List.append_inj' ht rfl).1⟩

/-- Every element of the reversed-path ancestor chain is a prefix of the
path. -/
theorem mem_ancRev {q p : List String} (hp : p ∈ ancRev q) : p <+: q.reverse := by
  induction q with
  | nil =>
    simp only [ancRev, List.mem_singleton] at hp
    simp [hp]
  | cons c rest ih =>
    simp only [ancRev, List.mem_cons] at hp
    rcases hp with rfl | hp
    · exact List.prefix_rfl
    · refine (ih hp).trans ?_
      rw [List.reverse_cons]
      exact List.prefix_append rest.reverse [c]

/-- Every prefix of the path is an element of the ancestor chain. -/
theorem ancRev_complete {q p : List String} (hp : p <+: q.reverse) : p ∈ ancRev q := by
  induction q with
  | nil =>
    simp only [List.reverse_nil, List.prefix_nil] at hp
    simp [ancRev, hp]
  | cons c rest ih =>
    rw [List.reverse_cons] at hp
    rcases prefix_snoc_cases hp with hp | rfl
    · exact List.mem_cons_of_mem _ (ih hp)
    · simp [ancRev]

/-- The `find_root` loop agrees with scanning the ancestor chain for the
first marked directory, provided the starting directory is readable. -/
theorem findRootRev_eq_find (fs : List Entry) (q : List String)
    (h : (readDir fs q.reverse).isSome = true) :
    findRootRev fs q =
      match (ancRev q).find? (fun r => hasMarker fs r) with
      | some r => Except.ok r
      | none => Except.error Error.RootNotFound := by
  induction q with
  | nil =>
    cases hm : hasChpToml fs with
    | true => simp [findRootRev, readDir, ancRev, hasMarker, hm]
    | false => simp [findRootRev, readDir, ancRev, hasMarker, hm]
  | cons c rest ih =>
    obtain ⟨es, hes⟩ := Option.isSome_iff_exists.mp h
    have hrest : (readDir fs rest.reverse).isSome = true := by
      refine readDir_isSome_of_append fs rest.reverse [c] ?_
      rw [← List.reverse_cons]
      exact h
    have hm : hasMarker fs ((c :: rest).reverse) = hasChpToml es := by
      rw [hasMarker, hes]
    cases hme : hasChpToml es with
    | true =>
      simp only [findRootRev, hes, hme, if_true, ancRev]
      rw [List.find?_cons_of_pos _ (by rw [hm, hme])]
    | false =>
      simp only [findRootRev, hes, hme, if_false, ancRev]
      rw [List.find?_cons_of_neg _ (by rw [hm, hme]; simp)]
      exact ih hrest

/-- When the `find_root` loop succeeds, it returns a marked prefix of the
path, and no longer (nearer) prefix is marked. -/
theorem findRootRev_ok_nearest (fs : List Entry) (q : List String)
    (h : (readDir fs q.reverse).isSome = true) {r : List String}
    (hok : findRootRev fs q = Except.ok r) :
    r <+: q.reverse ∧ hasMarker fs r = true ∧
      ∀ p, p <+: q.reverse → hasMarker fs p = true → p.length ≤ r.length := by
  induction q with
  | nil =>
    rw [findRootRev] at hok
    cases hm : hasChpToml fs with
    | true =>
      rw [show readDir fs [] = some fs from rfl] at hok
      simp only [hm, if_true] at hok
      obtain rfl : ([] : List String) = r := by
        simpa using hok
      refine ⟨List.prefix_rfl, by simp [hasMarker, readDir, hm], ?_⟩
      intro p hp _
      simp only [List.reverse_nil, List.prefix_nil] at hp
      simp [hp]
    | false =>
      rw [show readDir fs [] = some fs from rfl] at hok
      simp [hm] at hok
  | cons c rest ih =>
    obtain ⟨es, hes⟩ := Option.isSome_iff_exists.mp h
    have hrest : (readDir fs rest.reverse).isSome = true := by
      refine readDir_isSome_of_append fs rest.reverse [c] ?_
      rw [← List.reverse_cons]
      exact h
    have hm : hasMarker fs ((c :: rest).reverse) = hasChpToml es := by
      rw [hasMarker, hes]
    rw [findRootRev] at hok
    cases hme : hasChpToml es with
    | true =>
      simp only [hes, hme, if_true] at hok
      obtain rfl : (c :: rest).reverse = r := by simpa using hok
      refine ⟨List.prefix_rfl, by rw [hm, hme], ?_⟩
      intro p hp _
      exact hp.length_le
    | false =>
      simp only [hes, hme, if_false] at hok
      obtain ⟨h1, h2, h3⟩ := ih hrest hok
      refine ⟨h1.trans (by rw [List.reverse_cons]; exact List.prefix_append _ _), h2, ?_⟩
      intro p hp hpm
      rw [List.reverse_cons] at hp
      rcases prefix_snoc_cases hp with hp | rfl
      · exact h3 p hp hpm
      · rw [← List.reverse_cons] at hpm
        rw [hm, hme] at hpm
        exact absurd hpm (by simp)

/-- When the `find_root` loop fails with the not-found error, no ancestor is
marked. -/
theorem findRootRev_notfound (fs : List Entry) (q : List String)
    (h : (readDir fs q.reverse).isSome = true)
    (hnf : findRootRev fs q = Except.error Error.RootNotFound) :
    ∀ p, p <+: q.reverse → hasMarker fs p = false := by
  induction q with
  | nil =>
    intro p hp
    simp only [List.reverse_nil, List.prefix_nil] at hp
    subst hp
    rw [findRootRev] at hnf
    cases hm : hasChpToml fs with
    | true =>
      simp only [show readDir fs [] = some fs from rfl, hm, if_true] at hnf
      exact absurd hnf (by simp)
    | false => simp [hasMarker, readDir, hm]
  | cons c rest ih =>
    obtain ⟨es, hes⟩ := Option.isSome_iff_exists.mp h
    have hrest : (readDir fs rest.reverse).isSome = true := by
      refine readDir_isSome_of_append fs rest.reverse [c] ?_
      rw [← List.reverse_cons]
      exact h
    have hm : hasMarker fs ((c :: rest).reverse) = hasChpToml es := by
      rw [hasMarker, hes]
    rw [findRootRev] at hnf
    cases hme : hasChpToml es with
    | true =>
      simp only [hes, hme, if_true] at hnf
      exact absurd hnf (by simp)
    | false =>
      simp only [hes, hme, if_false] at hnf
      intro p hp
      rw [List.reverse_cons] at hp
      rcases prefix_snoc_cases hp with hp | rfl
      · exact ih hrest hnf p hp
      · rw [← List.reverse_cons, hm, hme]

/-- C4: for every invocation directory (readable in the filesystem),
`find_root` returns the NEAREST ancestor — the invocation directory itself
included — whose immediate children contain an entry named `chp.toml`; it
scans the ancestor chain nearest-first, the returned directory is a marked
prefix of the invocation directory no shorter than any other marked
ancestor, and when no ancestor is marked it fails with `RootNotFound`. -/
theorem find_root_returns_nearest_marked_ancestor (fs : List Entry) (cwd : List String)
    (h : (readDir fs cwd).isSome = true) :
    (find_root fs cwd =
      match (ancestorsOf cwd).find? (fun r => hasMarker fs r) with
      | some r => Except.ok r
      | none => Except.error Error.RootNotFound) ∧
    (∀ r, find_root fs cwd = Except.ok r →
      r <+: cwd ∧ hasMarker fs r = true ∧
        ∀ p, p <+: cwd → hasMarker fs p = true → p.length ≤ r.length) ∧
    (find_root fs cwd = Except.error Error.RootNotFound →
      ∀ p, p <+: cwd → hasMarker fs p = false) := by
  have hrev : (readDir fs cwd.reverse.reverse).isSome = true := by
    rw [List.reverse_reverse]; exact h
  refine ⟨?_, ?_, ?_⟩
  · have := findRootRev_eq_find fs cwd.reverse hrev
    rw [find_root, ancestorsOf, this]
  · intro r hok
    have := findRootRev_ok_nearest fs cwd.reverse hrev (by rw [← find_root]; exact hok)
    rw [List.reverse_reverse] at this
    exact this
  · intro hnf p hp
    have := findRootRev_notfound fs cwd.reverse hrev (by rw [← find_root]; exact hnf)
    rw [List.reverse_reverse] at this
    exact this p hp

/-- Witness for C4: in a tree with markers at depth 0 and inside `a`, invoked
from `a/b`, the nearest marked ancestor `a` is returned. -/
theorem find_root_returns_nearest_marked_ancestor_witness :
    find_root nestedFs ["a", "b"] = Except.ok ["a"] := by
  refine ((find_root_returns_nearest_marked_ancestor nestedFs ["a", "b"] rfl).1).trans ?_
  simp [ancestorsOf, ancRev, hasMarker, readDir, hasChpToml, Entry.name, nestedFs]

/-! ### Scaffolding -/

/-- C7: a scaffolding request (`init` or `new`) whose target directory is
readable and contains at least one entry fails with the non-empty-directory
error, and the filesystem is returned completely unchanged — the check
happens before any write. -/
theorem scaffold_nonempty_target_fails_unchanged (fs : List Entry) (cwd : List String)
    (exec : Executor) (maybe_name : Option String) (e : Entry) (es : List Entry)
    (h : readDir fs (targetOf cwd maybe_name) = some (e :: es)) :
    init_project fs cwd exec maybe_name = (Except.error Error.NonEmptyDirectory, fs) := by
  simp only [init_project, h]

/-- Witness for C7: `new proj` with `proj` already holding one entry. -/
theorem scaffold_nonempty_target_fails_unchanged_witness :
    init_project dirtyFs [] execQuiet (some "proj") =
      (Except.error Error.NonEmptyDirectory, dirtyFs) :=
  scaffold_nonempty_target_fails_unchanged dirtyFs [] execQuiet (some "proj")
    (.file "junk" (.text "")) [] rfl

/-! ### Configuration loading -/

/-- Deserialization succeeds exactly when all mandatory fields are present,
and every field of the result is taken verbatim from the document. -/
theorem fromToml_eq_some_iff (d : TomlDoc) (c : Config) :
    fromToml d = some c ↔
      d.name = some c.name ∧ d.command = some c.command ∧
      d.compile_cpp_in_dirs = c.compile_cpp_in_dirs ∧
      d.profiles_debug = some c.profiles.debug ∧
      d.profiles_release = some c.profiles.release := by
  obtain ⟨dn, dc, dd, dpd, dpr⟩ := d
  obtain ⟨cn, cc, cd, ⟨cdbg, crel⟩⟩ := c
  cases dn <;> cases dc <;> cases dpd <;> cases dpr <;>
    simp [fromToml, Config.mk.injEq, Profiles.mk.injEq]

/-- C8: configuration loading is all-or-nothing.  With the root resolved, an
unreadable `chp.toml` gives the read error; readable text that is not a
TOML document of the schema gives the parse error; a TOML document missing
any of the mandatory `name`, `command`, `profiles.debug`, `profiles.release`
gives the parse error; and a successfully returned descriptor takes every
field, the optional one included, verbatim from the document — no partial or
defaulted descriptor exists. -/
theorem read_config_all_or_nothing (fs : List Entry) (cwd root : List String)
    (hroot : find_root fs cwd = Except.ok root) :
    (readFile fs (root ++ ["chp.toml"]) = none →
      read_config fs cwd = Except.error Error.ConfigReadError) ∧
    (∀ s, readFile fs (root ++ ["chp.toml"]) = some (.text s) →
      read_config fs cwd = Except.error Error.ConfigParseError) ∧
    (∀ d, readFile fs (root ++ ["chp.toml"]) = some (.doc d) →
      ((d.name = none ∨ d.command = none ∨ d.profiles_debug = none ∨
          d.profiles_release = none) →
        read_config fs cwd = Except.error Error.ConfigParseError) ∧
      (∀ c, read_config fs cwd = Except.ok c →
        d.name = some c.name ∧ d.command = some c.command ∧
        d.compile_cpp_in_dirs = c.compile_cpp_in_dirs ∧
        d.profiles_debug = some c.profiles.debug ∧
        d.profiles_release = some c.profiles.release)) := by
  refine ⟨?_, ?_, ?_⟩
  · intro h
    simp [read_config, hroot, h]
  · intro s h
    simp [read_config, hroot, h, parseFileData]
  · intro d h
    constructor
    · intro habs
      cases hf : fromToml d with
      | none => simp [read_config, hroot, h, parseFileData, hf]
      | some c =>
        have := (fromToml_eq_some_iff d c).mp hf
        rcases habs with h1 | h1 | h1 | h1 <;>
          simp [h1] at this
    · intro c hok
      simp only [read_config, hroot, h, parseFileData] at hok
      cases hf : fromToml d with
      | none => rw [hf] at hok; exact absurd hok (by simp)
      | some c2 =>
        rw [hf] at hok
        have hcc : c2 = c := by simpa using hok
        subst hcc
        exact (fromToml_eq_some_iff d c2).mp hf

/-- Witness for C8: a document missing the mandatory `name` field fails with
the parse error. -/
theorem read_config_all_or_nothing_witness :
    read_config badFs [] = Except.error Error.ConfigParseError :=
  ((read_config_all_or_nothing badFs [] [] rfl).2.2 badToml rfl).1 (Or.inl rfl)

/-! ### The Build operation -/

/-- C3: every compiler process that `build` spawns is the configured command
applied to exactly the discovered source paths followed by the selected
profile's flag list, in that order. -/
theorem build_argument_vector (fs : List Entry) (cwd : List String) (exec : Executor)
    (release : Bool) (cfg : Config) (files : List (List String))
    (hc : read_config fs cwd = Except.ok cfg)
    (hf : find_cpp_files_in_dirs fs cwd cfg.compile_cpp_in_dirs = Except.ok files) :
    ∀ inv, Effect.spawn inv ∈ (build fs cwd exec release).2 →
      inv.program = cfg.command ∧
      inv.args = files.map pathToString ++ profileArgs cfg release := by
  intro inv hmem
  simp only [build, hc, hf] at hmem
  cases hex : exec (compilerInvocation cfg release files cwd) with
  | none =>
    simp only [hex] at hmem
    simp at hmem
    subst hmem
    exact ⟨rfl, rfl⟩
  | some out =>
    simp only [hex] at hmem
    cases hse : out.stderr.isEmpty with
    | true =>
      simp only [hse, if_true] at hmem
      simp at hmem
      subst hmem
      exact ⟨rfl, rfl⟩
    | false =>
      simp only [hse, if_false] at hmem
      simp at hmem
      subst hmem
      exact ⟨rfl, rfl⟩

/-- Witness for C3: the end-to-end scenario — `name="demo"`, `command="cc"`,
one source file `src/main.cpp`, debug profile `["-O0","-o",
"build/debug/demo.out"]` — spawns `cc` with arguments exactly
`["src/main.cpp","-O0","-o","build/debug/demo.out"]`. -/
theorem build_argument_vector_witness :
    (Invocation.mk "cc" ["src/main.cpp", "-O0", "-o", "build/debug/demo.out"] []).program =
      demoConfig.command ∧
    (Invocation.mk "cc" ["src/main.cpp", "-O0", "-o", "build/debug/demo.out"] []).args =
      [["src", "main.cpp"]].map pathToString ++ profileArgs demoConfig false :=
  build_argument_vector demoFs [] execQuiet false demoConfig [["src", "main.cpp"]] rfl
    (by simp [find_cpp_files_in_dirs, findCppGo, walkEntries, find_root, findRootRev, readDir,
      extension, extensionAux, stripRoot, Entry.name, hasChpToml, demoFs, demoToml, demoConfig])
    ⟨"cc", ["src/main.cpp", "-O0", "-o", "build/debug/demo.out"], []⟩
    (by simp [build, read_config, find_cpp_files_in_dirs, findCppGo, walkEntries, find_root,
      findRootRev, readDir, readFile, parseFileData, fromToml, extension, extensionAux,
      stripRoot, Entry.name, compilerInvocation, profileArgs, pathToString, execQuiet, demoFs,
      demoToml, hasChpToml])

/-- C6: when the compiler spawns successfully but emits a non-empty standard
error, `build` forwards those bytes verbatim to the caller's standard error
as its final action (nothing of the pipeline follows) and still returns `Ok`
(overall success); a failure to spawn the compiler is the hard
`ProcessSpawnError`, and every successful spawn — whatever the captured
standard error — completes with `Ok`. -/
theorem build_soft_stop_reports_success (fs : List Entry) (cwd : List String)
    (exec : Executor) (release : Bool) (cfg : Config) (files : List (List String))
    (out : ProcOutput)
    (hc : read_config fs cwd = Except.ok cfg)
    (hf : find_cpp_files_in_dirs fs cwd cfg.compile_cpp_in_dirs = Except.ok files) :
    (exec (compilerInvocation cfg release files cwd) = some out → out.stderr ≠ [] →
      build fs cwd exec release =
        (Except.ok (), [Effect.log ("Building " ++ pathToString cwd),
          Effect.spawn (compilerInvocation cfg release files cwd),
          Effect.writeStderr out.stderr])) ∧
    (exec (compilerInvocation cfg release files cwd) = none →
      build fs cwd exec release =
        (Except.error Error.ProcessSpawnError,
          [Effect.log ("Building " ++ pathToString cwd),
           Effect.spawn (compilerInvocation cfg release files cwd)])) ∧
    (∀ out2, exec (compilerInvocation cfg release files cwd) = some out2 →
      (build fs cwd exec release).1 = Except.ok ()) := by
  refine ⟨?_, ?_, ?_⟩
  · intro hex hne
    have hse : out.stderr.isEmpty = false := by
      cases hs : out.stderr with
      | nil => exact absurd hs hne
      | cons b bs => simp
    simp [build, hc, hf, hex, hse]
  · intro hex
    simp [build, hc, hf, hex]
  · intro out2 hex
    cases hse : out2.stderr.isEmpty <;> simp [build, hc, hf, hex, hse]

/-- Witness for C6: the demo project with a compiler that emits the stderr
byte `5` still builds with `Ok`, forwarding `[5]`. -/
theorem build_soft_stop_reports_success_witness :
    build demoFs [] execNoisy false =
      (Except.ok (), [Effect.log ("Building " ++ pathToString []),
        Effect.spawn (compilerInvocation demoConfig false [["src", "main.cpp"]] []),
        Effect.writeStderr [5]]) :=
  (build_soft_stop_reports_success demoFs [] execNoisy false demoConfig [["src", "main.cpp"]]
    ⟨[], [5]⟩ rfl
    (by simp [find_cpp_files_in_dirs, findCppGo, walkEntries, find_root, findRootRev, readDir,
      extension, extensionAux, stripRoot, Entry.name, hasChpToml, demoFs, demoToml,
      demoConfig])).1 rfl (by simp)

/-! ### Run: output forwarding, gating, binary location -/

/-- C9: output of the invoked external tools is forwarded verbatim: when the
compiler emits a non-empty standard error, `build` writes exactly those bytes
to the caller's standard error; and whenever `run` spawns the produced
binary, it appends the binary's standard output and standard error verbatim,
in that order, after the spawn (the child having terminated). -/
theorem external_output_forwarded_verbatim (fs : List Entry) (cwd : List String)
    (exec : Executor) (release : Bool) (args : List String) :
    (∀ cfg files out, read_config fs cwd = Except.ok cfg →
      find_cpp_files_in_dirs fs cwd cfg.compile_cpp_in_dirs = Except.ok files →
      exec (compilerInvocation cfg release files cwd) = some out → out.stderr ≠ [] →
      (build fs cwd exec release).2 =
        [Effect.log ("Building " ++ pathToString cwd),
         Effect.spawn (compilerInvocation cfg release files cwd),
         Effect.writeStderr out.stderr]) ∧
    (∀ btr cfg out, build fs cwd exec release = (Except.ok (), btr) →
      read_config fs cwd = Except.ok cfg →
      exec ⟨pathToString (binaryPath cwd release cfg.name), args, cwd⟩ = some out →
      (run fs cwd exec release args).2 =
        btr ++ [Effect.log ("Running " ++ pathToString (binaryPath cwd release cfg.name)),
          Effect.spawn ⟨pathToString (binaryPath cwd release cfg.name), args, cwd⟩,
          Effect.writeStdout out.stdout, Effect.writeStderr out.stderr]) := by
  constructor
  · intro cfg files out hc hf hex hne
    have hse : out.stderr.isEmpty = false := by
      cases hs : out.stderr with
      | nil => exact absurd hs hne
      | cons b bs => simp
    simp [build, hc, hf, hex, hse]
  · intro btr cfg out hb hc hex
    simp [run, hb, hc, hex]

/-- Witness for C9: the demo project with a noisy compiler; the compiler
stderr byte `5` is forwarded by `build`, and the binary output bytes are
forwarded by `run` after the spawn. -/
theorem external_output_forwarded_verbatim_witness :
    (build demoFs [] execNoisy false).2 =
      [Effect.log ("Building " ++ pathToString []),
       Effect.spawn (compilerInvocation demoConfig false [["src", "main.cpp"]] []),
       Effect.writeStderr [5]] ∧
    (run demoFs [] execNoisy false []).2 =
      [Effect.log ("Building " ++ pathToString []),
       Effect.spawn (compilerInvocation demoConfig false [["src", "main.cpp"]] []),
       Effect.writeStderr [5]] ++
        [Effect.log ("Running " ++ pathToString (binaryPath [] false demoConfig.name)),
         Effect.spawn ⟨pathToString (binaryPath [] false demoConfig.name), [], []⟩,
         Effect.writeStdout [7], Effect.writeStderr []] :=
  ⟨(external_output_forwarded_verbatim demoFs [] execNoisy false []).1 demoConfig
      [["src", "main.cpp"]] ⟨[], [5]⟩ rfl
      (by simp [find_cpp_files_in_dirs, findCppGo, walkEntries, find_root, findRootRev, readDir,
        extension, extensionAux, stripRoot, Entry.name, hasChpToml, demoFs, demoToml, demoConfig])
      rfl (by simp),
   (external_output_forwarded_verbatim demoFs [] execNoisy false []).2
      [Effect.log ("Building " ++ pathToString []),
       Effect.spawn (compilerInvocation demoConfig false [["src", "main.cpp"]] []),
       Effect.writeStderr [5]] demoConfig ⟨[7], []⟩
      (by simp [build, read_config, find_cpp_files_in_dirs, findCppGo, walkEntries, find_root,
        findRootRev, readDir, readFile, parseFileData, fromToml, extension, extensionAux,
        stripRoot, Entry.name, hasChpToml, compilerInvocation, profileArgs, pathToString,
        demoFs, demoToml, demoConfig, execNoisy])
      rfl rfl⟩

/-- C1 fails on the code: a counterexample in which the build step captures
the non-empty compiler standard error `[5]` (and forwards it), and the run
request nevertheless spawns the produced binary.  `build` returns plain `Ok`
in the soft-stop case, so `run`, which only checks for hard errors, cannot
observe the stop. -/
theorem run_proceeds_after_nonempty_compiler_stderr :
    build demoFs [] execNoisy false =
      (Except.ok (), [Effect.log ("Building " ++ pathToString []),
        Effect.spawn (compilerInvocation demoConfig false [["src", "main.cpp"]] []),
        Effect.writeStderr [5]]) ∧
    ([5] : List Nat) ≠ [] ∧
    Effect.spawn ⟨"build/debug/demo.exe", [], []⟩ ∈ (run demoFs [] execNoisy false []).2 := by
  refine ⟨?_, by simp, ?_⟩
  · simp [build, read_config, find_cpp_files_in_dirs, findCppGo, walkEntries, find_root,
      findRootRev, readDir, readFile, parseFileData, fromToml, extension, extensionAux,
      stripRoot, Entry.name, hasChpToml, compilerInvocation, profileArgs, pathToString,
      demoFs, demoToml, demoConfig, execNoisy]
  · simp [run, build, read_config, find_cpp_files_in_dirs, findCppGo, walkEntries, find_root,
      findRootRev, readDir, readFile, parseFileData, fromToml, extension, extensionAux,
      stripRoot, Entry.name, hasChpToml, compilerInvocation, profileArgs, binaryPath,
      pathToString, demoFs, demoToml, demoConfig, execNoisy]

/-- C1 amended: whenever the build step of a run request returns success —
which includes the soft-stop case of non-empty compiler standard error, since
`build` returns plain `Ok` then — `run` proceeds and spawns the produced
binary (whenever the binary itself can be spawned). -/
theorem run_spawns_binary_after_soft_stop (fs : List Entry) (cwd : List String)
    (exec : Executor) (release : Bool) (args : List String) (btr : List Effect)
    (cfg : Config) (out : ProcOutput)
    (hb : build fs cwd exec release = (Except.ok (), btr))
    (hc : read_config fs cwd = Except.ok cfg)
    (hex : exec ⟨pathToString (binaryPath cwd release cfg.name), args, cwd⟩ = some out) :
    Effect.spawn ⟨pathToString (binaryPath cwd release cfg.name), args, cwd⟩ ∈
      (run fs cwd exec release args).2 := by
  simp [run, hb, hc, hex]

/-- Witness for the amended C1: the noisy-compiler run (the build trace ends
with the forwarded stderr `[5]`) still spawns `build/debug/demo.exe`. -/
theorem run_spawns_binary_after_soft_stop_witness :
    Effect.spawn ⟨"build/debug/demo.exe", [], []⟩ ∈ (run demoFs [] execNoisy false []).2 :=
  run_spawns_binary_after_soft_stop demoFs [] execNoisy false []
    [Effect.log ("Building " ++ pathToString []),
     Effect.spawn (compilerInvocation demoConfig false [["src", "main.cpp"]] []),
     Effect.writeStderr [5]] demoConfig ⟨[7], []⟩
    (by simp [build, read_config, find_cpp_files_in_dirs, findCppGo, walkEntries, find_root,
      findRootRev, readDir, readFile, parseFileData, fromToml, extension, extensionAux,
      stripRoot, Entry.name, hasChpToml, compilerInvocation, profileArgs, pathToString,
      demoFs, demoToml, demoConfig, execNoisy])
    rfl rfl

/-- C2 fails on the code: invoked from the subdirectory `sub` of a project
rooted at `[]`, `run` spawns the binary at `sub/build/debug/demo.exe` — the
path is rooted at the INVOCATION directory (`current_dir()`), not at the
project root, so it differs from the root-rooted location the claim
specifies. -/
theorem run_binary_path_rooted_at_invocation_dir :
    find_root subFs ["sub"] = Except.ok [] ∧
    run subFs ["sub"] execSub false [] =
      (Except.ok (), [Effect.log ("Building " ++ pathToString ["sub"]),
        Effect.spawn ⟨"cc", ["src/main.cpp", "-O0", "-o", "build/debug/demo.out"], ["sub"]⟩,
        Effect.log ("Running " ++ pathToString ["sub", "build", "debug", "demo.exe"]),
        Effect.spawn ⟨"sub/build/debug/demo.exe", [], ["sub"]⟩,
        Effect.writeStdout [1], Effect.writeStderr [2]]) ∧
    "sub/build/debug/demo.exe" ≠ pathToString ([] ++ ["build", "debug", "demo.exe"]) := by
  refine ⟨rfl, ?_, by decide⟩
  simp [run, build, read_config, find_cpp_files_in_dirs, findCppGo, walkEntries, find_root,
    findRootRev, readDir, readFile, parseFileData, fromToml, extension, extensionAux,
    stripRoot, Entry.name, hasChpToml, compilerInvocation, profileArgs, binaryPath,
    pathToString, subFs, demoToml, execSub]

/-- C2 amended: for every run request whose build step returned success, the
binary spawned beyond the build step's trace is located at
`<invocation-dir>/build/<profile-name>/<descriptor.name>.exe`, where the
profile name is `release` exactly when the release selector is set — the
path is rooted at the invocation directory, not at the project root. -/
theorem run_spawns_binary_at_cwd_rooted_path (fs : List Entry) (cwd : List String)
    (exec : Executor) (release : Bool) (args : List String) (btr : List Effect)
    (cfg : Config)
    (hb : build fs cwd exec release = (Except.ok (), btr))
    (hc : read_config fs cwd = Except.ok cfg) :
    ∀ inv, Effect.spawn inv ∈ (run fs cwd exec release args).2 →
      Effect.spawn inv ∉ btr →
      inv = ⟨pathToString (cwd ++ ["build", if release then "release" else "debug",
        cfg.name ++ ".exe"]), args, cwd⟩ := by
  intro inv hmem hnot
  simp only [run, hb, hc] at hmem
  cases hex : exec ⟨pathToString (binaryPath cwd release cfg.name), args, cwd⟩ with
  | none =>
    simp only [hex] at hmem
    simp at hmem
    rcases hmem with h | h
    · exact absurd h hnot
    · subst h; rfl
  | some out =>
    simp only [hex] at hmem
    simp at hmem
    rcases hmem with h | h
    · exact absurd h hnot
    · subst h; rfl

/-- Witness for the amended C2: from `sub`, the spawned binary is exactly
the invocation-directory-rooted `sub/build/debug/demo.exe`. -/
theorem run_spawns_binary_at_cwd_rooted_path_witness :
    (⟨"sub/build/debug/demo.exe", [], ["sub"]⟩ : Invocation) =
      ⟨pathToString (["sub"] ++ ["build", if false then "release" else "debug",
        demoConfig.name ++ ".exe"]), [], ["sub"]⟩ :=
  run_spawns_binary_at_cwd_rooted_path subFs ["sub"] execSub false []
    [Effect.log ("Building " ++ pathToString ["sub"]),
     Effect.spawn ⟨"cc", ["src/main.cpp", "-O0", "-o", "build/debug/demo.out"], ["sub"]⟩]
    demoConfig
    (by simp [build, read_config, find_cpp_files_in_dirs, findCppGo, walkEntries, find_root,
      findRootRev, readDir, readFile, parseFileData, fromToml, extension, extensionAux,
      stripRoot, Entry.name, hasChpToml, compilerInvocation, profileArgs, pathToString,
      subFs, demoToml, execSub])
    rfl ⟨"sub/build/debug/demo.exe", [], ["sub"]⟩
    (by simp [run, build, read_config, find_cpp_files_in_dirs, findCppGo, walkEntries,
      find_root, findRootRev, readDir, readFile, parseFileData, fromToml, extension,
      extensionAux, stripRoot, Entry.name, hasChpToml, compilerInvocation, profileArgs,
      binaryPath, pathToString, subFs, demoToml, execSub])
    (by decide)

/-! ### Source discovery -/

/-- The walk distributes over concatenation of entry lists. -/
theorem walkEntries_append (root dp : List String) (xs ys : List Entry) :
    walkEntries root dp (xs ++ ys) = walkEntries root dp xs ++ walkEntries root dp ys := by
  refine walkEntries.induct root
    (fun dp xs => walkEntries root dp (xs ++ ys) = walkEntries root dp xs ++ walkEntries root dp ys)
    ?_ ?_ ?_ dp xs
  · intro dp
    simp [walkEntries]
  · intro dp n d rest ih
    simp [walkEntries, ih, List.append_assoc]
  · intro dp n sub rest ih1 ih2
    simp [walkEntries, ih2, List.append_assoc]

/-- Up to order, the walk of an entry list collects exactly the
`cpp`-extension entries (files and directories alike), with the directory
path prefixed and the root stripped. -/
theorem walkEntries_perm (root dp : List String) (es : List Entry) :
    (walkEntries root dp es).Perm
      ((cppEntriesList es).map (fun q => stripRoot root (dp ++ q))) := by
  refine walkEntries.induct root
    (fun dp es => (walkEntries root dp es).Perm
      ((cppEntriesList es).map (fun q => stripRoot root (dp ++ q)))) ?_ ?_ ?_ dp es
  · intro dp
    simp [walkEntries, cppEntriesList]
  · intro dp n d rest ih
    by_cases hn : extension n = some "cpp"
    · simp only [walkEntries, cppEntriesList, hn, if_true, List.map_append, List.map_cons,
        List.map_nil, List.singleton_append, List.cons_append, List.nil_append]
      exact ih.cons _
    · simp only [walkEntries, cppEntriesList, hn, if_false, List.nil_append]
      exact ih
  · intro dp n sub rest ih1 ih2
    have ih1' := ih1
    simp only [List.append_assoc, List.singleton_append] at ih1'
    by_cases hn : extension n = some "cpp"
    · simp only [walkEntries, cppEntriesList, hn, if_true, List.map_append, List.map_map,
        Function.comp, List.map_cons, List.map_nil, List.singleton_append, List.cons_append,
        List.nil_append, List.append_assoc]
      refine List.Perm.trans List.perm_middle ?_
      exact ((ih1'.append ih2).cons _)
    · simp only [walkEntries, cppEntriesList, hn, if_false, List.nil_append, List.append_nil,
        List.map_append, List.map_map, Function.comp]
      exact ih1'.append ih2

/-- Every path collected by the specification-side walk ends in a name with
extension `cpp`. -/
theorem cppEntriesList_shape (es : List Entry) :
    ∀ q ∈ cppEntriesList es, ∃ nm, q.getLast? = some nm ∧ extension nm = some "cpp" := by
  induction es using cppEntriesList.induct with
  | case1 => simp [cppEntriesList]
  | case2 n d rest ih =>
    intro q hq
    simp only [cppEntriesList] at hq
    rcases List.mem_append.mp hq with h | h
    · by_cases hn : extension n = some "cpp"
      · simp only [hn, if_true, List.mem_singleton] at h
        subst h
        exact ⟨n, rfl, hn⟩
      · simp [hn] at h
    · exact ih q h
  | case3 n sub rest ih1 ih2 =>
    intro q hq
    simp only [cppEntriesList, List.append_assoc] at hq
    rcases List.mem_append.mp hq with h | h
    · by_cases hn : extension n = some "cpp"
      · simp only [hn, if_true, List.mem_singleton] at h
        subst h
        exact ⟨n, rfl, hn⟩
      · simp [hn] at h
    · rcases List.mem_append.mp h with h | h
      · obtain ⟨q2, hq2, rfl⟩ := List.mem_map.mp h
        obtain ⟨nm, hl, he⟩ := ih1 q2 hq2
        refine ⟨nm, ?_, he⟩
        cases q2 with
        | nil => simp at hl
        | cons a as => simpa [List.getLast?_cons_cons] using hl
      · exact ih2 q h

/-- Membership in the specification-side collection: each collected path is
a configured directory name followed by a `cpp`-extension path inside it. -/
theorem mem_cppUnderDirs (fs : List Entry) (root : List String) (dirs : List String)
    (p : List String) (hp : p ∈ cppUnderDirs fs root dirs) :
    ∃ d ∈ dirs, ∃ es, readDir fs (root ++ [d]) = some es ∧
      ∃ q ∈ cppEntriesList es, p = d :: q := by
  induction dirs with
  | nil => simp [cppUnderDirs] at hp
  | cons d rest ih =>
    simp only [cppUnderDirs] at hp
    rcases List.mem_append.mp hp with h | h
    · cases hrd : readDir fs (root ++ [d]) with
      | none => simp only [hrd] at h; simp at h
      | some es =>
        simp only [hrd] at h
        obtain ⟨q, hq, rfl⟩ := List.mem_map.mp h
        exact ⟨d, by simp, es, hrd, q, hq, rfl⟩
    · obtain ⟨d2, hd2, es, hes, q, hq, rfl⟩ := ih h
      exact ⟨d2, by simp [hd2], es, hes, q, hq, rfl⟩

/-- When the discovery loop succeeds, its result is — up to enumeration
order — the specification-side collection. -/
theorem findCppGo_ok_perm (fs : List Entry) (root : List String) (dirs : List String)
    (l : List (List String)) (h : findCppGo fs root dirs = Except.ok l) :
    l.Perm (cppUnderDirs fs root dirs) := by
  induction dirs generalizing l with
  | nil =>
    simp only [findCppGo] at h
    obtain rfl : [] = l := by simpa using h
    simp [cppUnderDirs]
  | cons d rest ih =>
    simp only [findCppGo] at h
    cases hrd : readDir fs (root ++ [d]) with
    | none => simp only [hrd] at h; exact absurd h (by simp)
    | some es =>
      simp only [hrd] at h
      cases hgo : findCppGo fs root rest with
      | error e => simp only [hgo] at h; exact absurd h (by simp)
      | ok more =>
        simp only [hgo] at h
        obtain rfl : walkEntries root (root ++ [d]) es ++ more = l := by simpa using h
        simp only [cppUnderDirs, hrd]
        refine List.Perm.append ?_ (ih more hgo)
        refine (walkEntries_perm root (root ++ [d]) es).trans ?_
        have heq : ∀ q : List String, stripRoot root ((root ++ [d]) ++ q) = d :: q := by
          intro q
          simp only [stripRoot, List.append_assoc, List.singleton_append, List.drop_left]
        have : ((cppEntriesList es).map (fun q => stripRoot root ((root ++ [d]) ++ q))) =
            (cppEntriesList es).map (fun q => d :: q) :=
          List.map_congr_left (fun q _ => heq q)
        rw [this]

/-- A configured directory that does not resolve makes the discovery loop
fail with the walk error. -/
theorem findCppGo_err_of_missing (fs : List Entry) (root : List String) (dirs : List String)
    (h : ∃ d ∈ dirs, readDir fs (root ++ [d]) = none) :
    findCppGo fs root dirs = Except.error Error.DirectoryWalkError := by
  induction dirs with
  | nil => simp at h
  | cons d rest ih =>
    cases hrd : readDir fs (root ++ [d]) with
    | none => simp only [findCppGo, hrd]
    | some es =>
      obtain ⟨d2, hd2, hnone⟩ := h
      rcases List.mem_cons.mp hd2 with rfl | hd2
      · rw [hnone] at hrd; exact absurd hrd (by simp)
      · have hrec := ih ⟨d2, hd2, hnone⟩
        simp only [findCppGo, hrd, hrec]

/-- When every configured directory resolves, the discovery loop succeeds. -/
theorem findCppGo_ok_of_readable (fs : List Entry) (root : List String) (dirs : List String)
    (h : ∀ d ∈ dirs, (readDir fs (root ++ [d])).isSome = true) :
    ∃ l, findCppGo fs root dirs = Except.ok l := by
  induction dirs with
  | nil => exact ⟨[], rfl⟩
  | cons d rest ih =>
    obtain ⟨es, hes⟩ := Option.isSome_iff_exists.mp (h d (by simp))
    obtain ⟨more, hmore⟩ := ih (fun d2 hd2 => h d2 (by simp [hd2]))
    exact ⟨walkEntries root (root ++ [d]) es ++ more, by simp only [findCppGo, hes, hmore]⟩

/-- C5 amended: with the root resolved, discovery fails with
`DirectoryWalkError` exactly when some configured directory does not
resolve; on success it returns — up to enumeration order — one root-relative
path for EVERY entry, file or directory alike, whose name has extension
`cpp` under the configured directories (so the `cpp`-extension directories
are included along with the N files); every returned path lies inside a
configured directory and ends in a name with extension `cpp`, and entries
outside the configured directories are never returned. -/
theorem discovery_returns_cpp_extension_entries (fs : List Entry) (cwd root : List String)
    (dirs : List String) (hroot : find_root fs cwd = Except.ok root) :
    (find_cpp_files_in_dirs fs cwd (some dirs) = Except.error Error.DirectoryWalkError ↔
      ∃ d ∈ dirs, readDir fs (root ++ [d]) = none) ∧
    (∀ l, find_cpp_files_in_dirs fs cwd (some dirs) = Except.ok l →
      l.Perm (cppUnderDirs fs root dirs) ∧
      ∀ p ∈ l, (∃ d ∈ dirs, ∃ q, p = d :: q) ∧
        ∃ nm, p.getLast? = some nm ∧ extension nm = some "cpp") := by
  have hunfold : find_cpp_files_in_dirs fs cwd (some dirs) = findCppGo fs root dirs := by
    simp [find_cpp_files_in_dirs, hroot]
  constructor
  · rw [hunfold]
    constructor
    · intro herr
      by_contra hno
      push_neg at hno
      have hall : ∀ d ∈ dirs, (readDir fs (root ++ [d])).isSome = true := by
        intro d hd
        cases hrd : readDir fs (root ++ [d]) with
        | none => exact absurd hrd (hno d hd)
        | some es => simp
      obtain ⟨l, hl⟩ := findCppGo_ok_of_readable fs root dirs hall
      rw [hl] at herr
      exact absurd herr (by simp)
    · exact fun h => findCppGo_err_of_missing fs root dirs h
  · intro l hok
    rw [hunfold] at hok
    have hperm := findCppGo_ok_perm fs root dirs l hok
    refine ⟨hperm, ?_⟩
    intro p hp
    have hp2 : p ∈ cppUnderDirs fs root dirs := hperm.mem_iff.mp hp
    obtain ⟨d, hd, es, hes, q, hq, rfl⟩ := mem_cppUnderDirs fs root dirs p hp2
    obtain ⟨nm, hl2, he⟩ := cppEntriesList_shape es q hq
    refine ⟨⟨d, hd, q, rfl⟩, nm, ?_, he⟩
    cases q with
    | nil => simp at hl2
    | cons a as => simpa [List.getLast?_cons_cons] using hl2

/-- Witness for the amended C5: the project whose source directory contains
the (empty) directory `sub.cpp`. -/
theorem discovery_returns_cpp_extension_entries_witness :
    find_cpp_files_in_dirs dirCppFs [] (some ["src"]) = Except.ok [["src", "sub.cpp"]] ∧
    [["src", "sub.cpp"]].Perm (cppUnderDirs dirCppFs [] ["src"]) :=
  ⟨by simp [find_cpp_files_in_dirs, findCppGo, walkEntries, find_root, findRootRev, readDir,
      extension, extensionAux, stripRoot, Entry.name, hasChpToml, dirCppFs, demoToml],
   ((discovery_returns_cpp_extension_entries dirCppFs [] [] ["src"] rfl).2
      [["src", "sub.cpp"]]
      (by simp [find_cpp_files_in_dirs, findCppGo, walkEntries, find_root, findRootRev, readDir,
        extension, extensionAux, stripRoot, Entry.name, hasChpToml, dirCppFs, demoToml])).1⟩

/-- C5 fails as stated: the configured directory `src` of `dirCppFs`
contains ZERO files with extension `cpp` (its only entry is an empty
DIRECTORY named `sub.cpp`), yet discovery returns one path — the directory
path — so "exactly N paths, all files" is violated. -/
theorem discovery_counts_directories_counterexample :
    find_cpp_files_in_dirs dirCppFs [] (some ["src"]) = Except.ok [["src", "sub.cpp"]] ∧
    readDir dirCppFs ["src"] = some [Entry.dir "sub.cpp" []] ∧
    cppFileList [Entry.dir "sub.cpp" []] = [] ∧
    readDir dirCppFs ["src", "sub.cpp"] = some [] := by
  refine ⟨?_, rfl, ?_, rfl⟩
  · simp [find_cpp_files_in_dirs, findCppGo, walkEntries, find_root, findRootRev, readDir,
      extension, extensionAux, stripRoot, Entry.name, hasChpToml, dirCppFs, demoToml]
  · simp [cppFileList]

/-- C10: in the discovery walk, a directory entry whose name has extension
`cpp` is itself appended to the collected paths: the walk first collects the
directory's contents (recursion), then appends the directory's own
root-relative path, then continues with the remaining entries — so the
returned sequence can contain directory paths. -/
theorem walk_appends_cpp_directory_after_contents (root dp : List String)
    (pre : List Entry) (n : String) (sub : List Entry) (post : List Entry)
    (hn : extension n = some "cpp") :
    walkEntries root dp (pre ++ Entry.dir n sub :: post) =
      walkEntries root dp pre ++ (walkEntries root (dp ++ [n]) sub ++
        stripRoot root (dp ++ [n]) :: walkEntries root dp post) := by
  rw [walkEntries_append]
  simp [walkEntries, hn]

/-- Witness for C10: the directory `src/sub.cpp` is collected right after
its own contents. -/
theorem walk_appends_cpp_directory_after_contents_witness :
    walkEntries [] ["src"] ([] ++ Entry.dir "sub.cpp" [Entry.file "a.cpp" (.text "")] :: []) =
      walkEntries [] ["src"] [] ++ (walkEntries [] ["src", "sub.cpp"]
        [Entry.file "a.cpp" (.text "")] ++
        stripRoot [] (["src"] ++ ["sub.cpp"]) :: walkEntries [] ["src"] []) :=
  walk_appends_cpp_directory_after_contents [] ["src"] [] "sub.cpp"
    [Entry.file "a.cpp" (.text "")] [] rfl

end Chp
